import Mathlib

/-!
Verification development for the our-journal family tracking app.

Shallow embedding of the data model (src/src/types/index.ts), the task
schedule utilities (src/src/utils/taskScheduleUtils.ts), the entries store
(src/src/stores/entriesStore.ts), the storage service
(src/src/services/storage.ts), and the dashboard analytics
(src/app/(tabs)/dashboard.tsx).

Conventions of the embedding:
* Calendar dates (ISO `yyyy-MM-dd` strings in the source) are modelled as
  `Int` day indices with day 0 = 1970-01-01 (a Thursday).  ISO date strings
  compare lexicographically exactly as their day indices compare
  numerically, and `subDays(d, i)` is `d - i`, so all date comparisons and
  arithmetic in the source translate directly.  `date-fns`' `getDay`
  becomes `(d + 4) % 7` (0 = Sunday).
* JavaScript `Map` keys `` `${memberId}_${date}` `` are modelled as pairs
  `(memberId, date)`; the string encoding is injective on well-formed data
  because the date suffix has fixed length.
* `JSON.stringify`/`JSON.parse` round-trips are modelled as the identity on
  typed values; the local key-value store holds typed values directly.
* `Math.round(a / b)` on non-negative integers `a`, `b` is modelled as
  `(2 * a + b) / (2 * b)` (round half up, which is what JS `Math.round`
  computes on the exact rational values arising here).
-/

namespace OurJournal

/-- Day-of-week membership schedule of a task (types/index.ts `TaskSchedule`). -/
structure TaskSchedule where
  enabled : Bool
  days : List Int
deriving DecidableEq, Repr

/-- Task kinds (types/index.ts `TaskType`). -/
inductive TaskType where
  | checkbox
  | text
  | numeric
deriving DecidableEq, Repr

/-- A task response value: `boolean | string | number` in the source. -/
inductive Value where
  | bool (b : Bool)
  | str (s : String)
  | num (n : Int)
deriving DecidableEq, Repr

/-- A task (types/index.ts `Task`); `reminder` is irrelevant to every claim
and omitted. -/
structure Task where
  id : String
  name : String
  type : TaskType
  unit : Option String
  schedule : Option TaskSchedule
deriving DecidableEq, Repr

/-- types/index.ts `TaskResponse`. -/
structure TaskResponse where
  taskId : String
  value : Value
deriving DecidableEq, Repr

/-- types/index.ts `SectionEntry`. -/
structure SectionEntry where
  sectionId : String
  taskResponses : List TaskResponse
  notes : String
deriving DecidableEq, Repr

/-- types/index.ts `DailyEntry`; `date` is the day index of the ISO date. -/
structure DailyEntry where
  date : Int
  memberId : String
  sectionEntries : List SectionEntry
  lastModified : String
deriving DecidableEq, Repr

/-- types/index.ts `Section`. -/
structure Section where
  id : String
  name : String
  tasks : List Task
deriving DecidableEq, Repr

/-- types/index.ts `FamilyMember`. -/
structure FamilyMember where
  id : String
  name : String
  color : String
  sections : List Section
deriving DecidableEq, Repr

/-- types/index.ts `AppSettings`. -/
structure AppSettings where
  members : List FamilyMember
  lastModified : String
deriving DecidableEq, Repr

/-- types/index.ts `MonthlyEntries`. -/
structure MonthlyEntries where
  month : String
  entries : List DailyEntry
  lastModified : String
deriving DecidableEq, Repr

/-! ## Task schedule utilities (src/src/utils/taskScheduleUtils.ts) -/

/-- `getDay(parseISO(date))` for a day index (day 0 = 1970-01-01, a
Thursday, hence the offset 4); result in `0..6` with 0 = Sunday. -/
def dayOfWeek (date : Int) : Int :=
  (date + 4) % 7

/-- taskScheduleUtils.ts `isTaskVisibleOnDate`: no schedule, disabled
schedule, or empty day list means always visible; otherwise membership of
the date's day-of-week in `schedule.days`. -/
def isTaskVisibleOnDate (task : Task) (date : Int) : Bool :=
  match task.schedule with
  | none => true
  | some s =>
      if !s.enabled || s.days.length == 0 then true
      else s.days.contains (dayOfWeek date)

/-- taskScheduleUtils.ts `getVisibleTasks`. -/
def getVisibleTasks (sec : Section) (date : Int) : List Task :=
  sec.tasks.filter (fun t => isTaskVisibleOnDate t date)

/-- taskScheduleUtils.ts `countScheduledCheckboxTasks`. -/
def countScheduledCheckboxTasks (sec : Section) (date : Int) : Nat :=
  ((getVisibleTasks sec date).filter (fun t => t.type == TaskType.checkbox)).length

/-- C7: the three "daily" cases of `isTaskVisibleOnDate` return `true`;
with an enabled, non-empty schedule the task is visible exactly when the
date's day-of-week is listed; a singleton schedule `[day]` is visible
exactly on dates whose day-of-week equals `day`. -/
theorem c7_task_visibility (t : Task) (d : Int) :
    (t.schedule = none → isTaskVisibleOnDate t d = true) ∧
    (∀ s, t.schedule = some s → s.enabled = false → isTaskVisibleOnDate t d = true) ∧
    (∀ s, t.schedule = some s → s.days = [] → isTaskVisibleOnDate t d = true) ∧
    (∀ s, t.schedule = some s → s.enabled = true → s.days ≠ [] →
      (isTaskVisibleOnDate t d = true ↔ dayOfWeek d ∈ s.days)) ∧
    (∀ day, t.schedule = some ⟨true, [day]⟩ →
      (isTaskVisibleOnDate t d = true ↔ dayOfWeek d = day)) := by
  refine ⟨?_, ?_, ?_, ?_, ?_⟩
  · intro h; simp [isTaskVisibleOnDate, h]
  · intro s hs he; simp [isTaskVisibleOnDate, hs, he]
  · intro s hs hd; simp [isTaskVisibleOnDate, hs, hd]
  · intro s hs he hd
    simp only [isTaskVisibleOnDate, hs, he, Bool.not_true, Bool.false_or]
    rw [if_neg]
    · simp [List.contains, List.elem_iff]
    · simp [List.length_eq_zero]
      exact hd
  · intro day hday
    simp only [isTaskVisibleOnDate, hday, Bool.not_true, Bool.false_or]
    rw [if_neg] <;> simp [List.contains, List.elem_iff]

/-- Witness for C7: a task scheduled only on Sundays (day 0), evaluated on
2025-06-01 (day index 20240, a Sunday) and 2025-06-02 (a Monday). -/
theorem c7_task_visibility_witness :
    (isTaskVisibleOnDate ⟨"t1", "Task", TaskType.checkbox, none, some ⟨true, [0]⟩⟩ 20240 = true) ∧
    (dayOfWeek 20241 = 0 → False) ∧
    (isTaskVisibleOnDate ⟨"t2", "Task", TaskType.checkbox, none, none⟩ 20241 = true) := by
  refine ⟨?_, by decide, ?_⟩
  · exact ((c7_task_visibility ⟨"t1", "Task", TaskType.checkbox, none, some ⟨true, [0]⟩⟩ 20240).2.2.2.2
      0 rfl).2 (by decide)
  · exact (c7_task_visibility ⟨"t2", "Task", TaskType.checkbox, none, none⟩ 20241).1 rfl

/-! ## Dashboard analytics (src/app/(tabs)/dashboard.tsx) -/

/-- `selectedSection.tasks.filter((t) => t.type === 'checkbox')` as used by
`checkboxData`, `streak` and `calculateMonthRewards` in dashboard.tsx. -/
def checkboxTasksOf (sec : Section) : List Task :=
  sec.tasks.filter (fun t => t.type == TaskType.checkbox)

/-- `sectionEntry.taskResponses.find((tr) => tr.taskId === task.id)`. -/
def responseFor (se : SectionEntry) (taskId : String) : Option TaskResponse :=
  se.taskResponses.find? (fun tr => tr.taskId == taskId)

/-- `response?.value === true` for the response to `taskId` in `se`. -/
def isTrueResponse (se : SectionEntry) (taskId : String) : Bool :=
  match responseFor se taskId with
  | some r => r.value == Value.bool true
  | none => false

/-- The `completed` counter of `checkboxData` (dashboard.tsx lines
262-266): the number of tasks in `tasks` whose response in `se` is
`true`. -/
def completedCount (tasks : List Task) (se : SectionEntry) : Nat :=
  (tasks.filter (fun t => isTrueResponse se t.id)).length

/-- JS `Math.round(a / b)` for natural `a`, `b` with `b > 0`: round half
up. -/
def jsRoundDiv (a b : Nat) : Nat :=
  (2 * a + b) / (2 * b)

/-- `entries.find((e) => e.date === date)` followed by
`entry?.sectionEntries.find((se) => se.sectionId === selectedSection.id)`. -/
def sectionEntryOn (sec : Section) (entries : List DailyEntry) (date : Int) :
    Option SectionEntry :=
  match entries.find? (fun e => e.date == date) with
  | some e => e.sectionEntries.find? (fun se => se.sectionId == sec.id)
  | none => none

/-- One data point of `checkboxData` (dashboard.tsx lines 258-270): if the
date has a section entry, `Math.round((completed / checkboxTasks.length) * 100)`,
else 0. -/
def checkboxPercentOnDate (sec : Section) (entries : List DailyEntry) (date : Int) : Nat :=
  match sectionEntryOn sec entries date with
  | some se => jsRoundDiv (100 * completedCount (checkboxTasksOf sec) se) (checkboxTasksOf sec).length
  | none => 0

/-- The completion percentage as claim C1 states it (spelled out from the
spec's words, for comparison with `checkboxPercentOnDate`): the denominator
is the number of checkbox tasks visible on the date under the
task-visibility filter, the numerator counts true responses among those
visible tasks, and a zero denominator is treated as 0. -/
def claimedCompletionPercent (sec : Section) (entries : List DailyEntry) (date : Int) : Nat :=
  let visibleCheckbox :=
    (getVisibleTasks sec date).filter (fun t => t.type == TaskType.checkbox)
  match sectionEntryOn sec entries date with
  | some se =>
      if visibleCheckbox.length = 0 then 0
      else jsRoundDiv (100 * completedCount visibleCheckbox se) visibleCheckbox.length
  | none => 0

/-- Erase every task schedule of a section. -/
def stripSchedules (sec : Section) : Section :=
  { sec with tasks := sec.tasks.map (fun t => { t with schedule := none }) }

/-- A section whose single checkbox task is scheduled for Sundays only. -/
def c1Section : Section :=
  { id := "s1", name := "Morning",
    tasks := [{ id := "t1", name := "Brush", type := TaskType.checkbox,
                unit := none, schedule := some { enabled := true, days := [0] } }] }

/-- One entry on 2025-06-02 (day 20241, a Monday) with the task checked. -/
def c1Entries : List DailyEntry :=
  [{ date := 20241, memberId := "m1",
     sectionEntries := [{ sectionId := "s1",
                          taskResponses := [{ taskId := "t1", value := Value.bool true }],
                          notes := "" }],
     lastModified := "ts" }]

/-- Counterexample to C1: on a Monday, the only checkbox task is hidden by
its Sunday-only schedule, so the claimed formula gives 0 (denominator 0),
but `checkboxData` in dashboard.tsx divides by the unfiltered checkbox
count and yields 100. -/
theorem c1_counterexample :
    checkboxPercentOnDate c1Section c1Entries 20241 = 100 ∧
    claimedCompletionPercent c1Section c1Entries 20241 = 0 ∧
    countScheduledCheckboxTasks c1Section 20241 = 0 := by
  refine ⟨by decide, by decide, by decide⟩

private lemma filter_map_strip (p : Task → Bool)
    (hp : ∀ t : Task, p { t with schedule := none } = p t) (l : List Task) :
    (l.map (fun t => { t with schedule := none })).filter p
      = (l.filter p).map (fun t => { t with schedule := none }) := by
  induction l with
  | nil => rfl
  | cons a l ih =>
      simp only [List.map_cons, List.filter_cons, hp a]
      cases p a <;> simp [ih]

private lemma completedCount_strip (tasks : List Task) (se : SectionEntry) :
    completedCount (tasks.map (fun t => { t with schedule := none })) se
      = completedCount tasks se := by
  unfold completedCount
  rw [filter_map_strip (fun t => isTrueResponse se t.id) (fun t => rfl)]
  simp

/-- C1 amended: the per-date completion percentage of `checkboxData` is
`round(100 * completed / total)` where `total` is the number of ALL
checkbox tasks of the section — the task-visibility filter is not applied
(the percentage is invariant under erasing every schedule); a date without
a section entry charts as 0. -/
theorem c1_completion_percentage (sec : Section) (entries : List DailyEntry) (date : Int) :
    (∀ se, sectionEntryOn sec entries date = some se →
      checkboxPercentOnDate sec entries date
        = jsRoundDiv (100 * completedCount (checkboxTasksOf sec) se)
            (sec.tasks.filter (fun t => t.type == TaskType.checkbox)).length) ∧
    (sectionEntryOn sec entries date = none → checkboxPercentOnDate sec entries date = 0) ∧
    checkboxPercentOnDate (stripSchedules sec) entries date
      = checkboxPercentOnDate sec entries date := by
  refine ⟨?_, ?_, ?_⟩
  · intro se hse
    simp [checkboxPercentOnDate, hse, checkboxTasksOf]
  · intro hse
    simp [checkboxPercentOnDate, hse]
  · have hid : (stripSchedules sec).id = sec.id := rfl
    have hcb : checkboxTasksOf (stripSchedules sec)
        = (checkboxTasksOf sec).map (fun t => { t with schedule := none }) := by
      unfold checkboxTasksOf stripSchedules
      exact filter_map_strip (fun t => t.type == TaskType.checkbox) (fun t => rfl) sec.tasks
    unfold checkboxPercentOnDate
    rw [show sectionEntryOn (stripSchedules sec) entries date
          = sectionEntryOn sec entries date from rfl]
    cases sectionEntryOn sec entries date with
    | none => rfl
    | some se =>
        simp only [hcb, completedCount_strip, List.length_map]

/-- Witness for C1 amended: applied to a concrete section, entry list and
date with a section entry present. -/
theorem c1_completion_percentage_witness :
    checkboxPercentOnDate c1Section c1Entries 20241
      = jsRoundDiv (100 * completedCount (checkboxTasksOf c1Section)
          { sectionId := "s1",
            taskResponses := [{ taskId := "t1", value := Value.bool true }],
            notes := "" })
          (c1Section.tasks.filter (fun t => t.type == TaskType.checkbox)).length :=
  (c1_completion_percentage c1Section c1Entries 20241).1
    { sectionId := "s1",
      taskResponses := [{ taskId := "t1", value := Value.bool true }],
      notes := "" } (by decide)

/-! ## Streak (dashboard.tsx lines 313-343) -/

/-- The `allCompleted` flag of the streak loop: every task in `tasks` has a
response with value `true` in `se`. -/
def allCompletedOn (tasks : List Task) (se : SectionEntry) : Bool :=
  tasks.all (fun t => isTrueResponse se t.id)

/-- The test applied to one day of the streak walk: a section entry exists
for the date and every checkbox task of the section is completed.  A missing
entry (or an entry without a section entry) fails the test. -/
def dayComplete (sec : Section) (entries : List DailyEntry) (date : Int) : Bool :=
  match sectionEntryOn sec entries date with
  | some se => allCompletedOn (checkboxTasksOf sec) se
  | none => false

/-- The `for (let i = 0; i < 365; i++)` walk of `streak`, with explicit
fuel: day `today - i` passing the test contributes 1 and the walk continues;
the first failing day stops the walk. -/
def streakLoop (sec : Section) (entries : List DailyEntry) (today : Int) :
    Nat → Nat → Nat
  | _, 0 => 0
  | i, fuel + 1 =>
      if dayComplete sec entries (today - (i : Int)) then
        1 + streakLoop sec entries today (i + 1) fuel
      else 0

/-- dashboard.tsx `streak`: 0 when the section has no checkbox tasks, else
the backward walk from `today`, bounded by 365 days. -/
def streak (sec : Section) (entries : List DailyEntry) (today : Int) : Nat :=
  if (checkboxTasksOf sec).length == 0 then 0
  else streakLoop sec entries today 0 365

private lemma streakLoop_le (sec : Section) (entries : List DailyEntry) (today : Int) :
    ∀ fuel i, streakLoop sec entries today i fuel ≤ fuel := by
  intro fuel
  induction fuel with
  | zero => intro i; simp [streakLoop]
  | succ k ih =>
      intro i
      unfold streakLoop
      by_cases h : dayComplete sec entries (today - (i : Int)) = true
      · simp only [h, if_true]
        have := ih (i + 1)
        omega
      · simp only [Bool.not_eq_true] at h
        simp [h]

private lemma streakLoop_eq (sec : Section) (entries : List DailyEntry) (today : Int) :
    ∀ fuel i n, n ≤ fuel →
      (∀ j, j < n → dayComplete sec entries (today - ((i + j : Nat) : Int)) = true) →
      (n < fuel → dayComplete sec entries (today - ((i + n : Nat) : Int)) = false) →
      streakLoop sec entries today i fuel = n := by
  intro fuel
  induction fuel with
  | zero =>
      intro i n hn _ _
      interval_cases n
      simp [streakLoop]
  | succ k ih =>
      intro i n hn hall hstop
      cases n with
      | zero =>
          have h0 : dayComplete sec entries (today - (i : Int)) = false := by
            have := hstop (Nat.succ_pos k)
            simpa using this
          unfold streakLoop
          simp [h0]
      | succ m =>
          have h0 : dayComplete sec entries (today - (i : Int)) = true := by
            have := hall 0 (Nat.succ_pos m)
            simpa using this
          unfold streakLoop
          simp only [h0, if_true]
          have hrec : streakLoop sec entries today (i + 1) k = m := by
            apply ih (i + 1) m (by omega)
            · intro j hj
              have := hall (j + 1) (by omega)
              have harith : i + (j + 1) = i + 1 + j := by omega
              rwa [harith] at this
            · intro hm
              have := hstop (by omega)
              have harith : i + (m + 1) = i + 1 + m := by omega
              rwa [harith] at this
          omega

/-- C6: the streak walks backward one day at a time from `today`; for a
section with at least one checkbox task, if the first `n` days all pass the
day test (a section entry exists and every checkbox task of the section is
`true`) and day `n` fails it (or `n` reaches the 365-day bound), then the
streak is exactly `n`; the streak never exceeds 365. -/
theorem c6_streak (sec : Section) (entries : List DailyEntry) (today : Int) (n : Nat)
    (hne : checkboxTasksOf sec ≠ [])
    (hn : n ≤ 365)
    (hall : ((List.range n).all (fun i => dayComplete sec entries (today - (i : Int)))) = true)
    (hstop : n < 365 → dayComplete sec entries (today - (n : Int)) = false) :
    streak sec entries today = n ∧ streak sec entries today ≤ 365 := by
  have hlen : ((checkboxTasksOf sec).length == 0) = false := by
    simp [List.length_eq_zero]
    exact hne
  have hs : streak sec entries today = streakLoop sec entries today 0 365 := by
    unfold streak
    simp [hlen]
  constructor
  · rw [hs]
    apply streakLoop_eq sec entries today 365 0 n hn
    · intro j hj
      have := (List.all_eq_true.mp hall) j (List.mem_range.mpr hj)
      simpa using this
    · intro h365
      have := hstop h365
      simpa using this
  · rw [hs]
    exact streakLoop_le sec entries today 365 0

/-- The streak example section: one checkbox task, no schedule. -/
def c6Section : Section :=
  { id := "s1", name := "Habits",
    tasks := [{ id := "t1", name := "Walk", type := TaskType.checkbox,
                unit := none, schedule := none }] }

/-- An entry with the example task completed on the given day. -/
def c6Entry (d : Int) : DailyEntry :=
  { date := d, memberId := "m1",
    sectionEntries := [{ sectionId := "s1",
                         taskResponses := [{ taskId := "t1", value := Value.bool true }],
                         notes := "" }],
    lastModified := "ts" }

/-- Completed entries on 2025-06-01 (20240), 06-02 (20241) and 06-03
(20242), nothing on 06-04 or 06-05. -/
def c6Entries : List DailyEntry :=
  [c6Entry 20240, c6Entry 20241, c6Entry 20242]

/-- Witness for C6: with "today" = 2025-06-05 (20244) the missing day
breaks the streak immediately (streak 0); with "today" = 2025-06-03 (20242)
the streak is 3. -/
theorem c6_streak_witness :
    streak c6Section c6Entries 20244 = 0 ∧ streak c6Section c6Entries 20242 = 3 := by
  constructor
  · exact (c6_streak c6Section c6Entries 20244 0 (by decide) (by decide)
      (by decide) (fun _ => by decide)).1
  · exact (c6_streak c6Section c6Entries 20242 3 (by decide) (by decide)
      (by decide) (fun _ => by decide)).1

/-! ## Monthly rewards (dashboard.tsx `calculateMonthRewards`, lines
125-168) and the range query it uses
(entriesStore.ts `getEntriesForRange`, lines 227-242) -/

/-- entriesStore.ts `getEntriesForRange`: every held entry of the member
with `startDate <= date <= endDate` (inclusive bounds; ISO string
comparison = day-index comparison), sorted ascending by date.  The store's
map values are passed in as a list. -/
def getEntriesForRange (allEntries : List DailyEntry) (memberId : String)
    (startDate endDate : Int) : List DailyEntry :=
  (allEntries.filter (fun e =>
      e.memberId == memberId && decide (startDate ≤ e.date) && decide (e.date ≤ endDate))).mergeSort
    (fun a b => decide (a.date ≤ b.date))

/-- Per-section contribution to `completedCoins`: dashboard.tsx lines
147-158 look the section up in the member's CURRENT configuration and count
`true` responses of its checkbox tasks; an orphaned section entry counts
nothing. -/
def sectionCompletedCount (member : FamilyMember) (se : SectionEntry) : Nat :=
  match member.sections.find? (fun s => s.id == se.sectionId) with
  | some sec => completedCount (checkboxTasksOf sec) se
  | none => 0

/-- Per-entry contribution to `completedCoins`. -/
def entryCompletedCount (member : FamilyMember) (e : DailyEntry) : Nat :=
  (e.sectionEntries.map (fun se => sectionCompletedCount member se)).sum

/-- `totalCheckboxTasks` of dashboard.tsx lines 136-139: checkbox tasks in
the member's current configuration, across all sections. -/
def totalCheckboxTasks (member : FamilyMember) : Nat :=
  (member.sections.map (fun s => (checkboxTasksOf s).length)).sum

/-- The per-member record produced by `calculateMonthRewards`. -/
structure MemberRewards where
  completedCoins : Nat
  totalPossibleCoins : Nat
  entriesCount : Nat
deriving DecidableEq, Repr

/-- dashboard.tsx `calculateMonthRewards`, restricted to one member: range
query over the period, `totalPossibleCoins = totalCheckboxTasks × days`,
`completedCoins` summed over the returned entries. -/
def calculateMemberMonthRewards (allEntries : List DailyEntry) (member : FamilyMember)
    (daysInMonth : Nat) (startDate endDate : Int) : MemberRewards :=
  let entries := getEntriesForRange allEntries member.id startDate endDate
  { completedCoins := (entries.map (fun e => entryCompletedCount member e)).sum,
    totalPossibleCoins := totalCheckboxTasks member * daysInMonth,
    entriesCount := entries.length }

/-- The reward example member: one checkbox task in one section. -/
def c8Member : FamilyMember :=
  { id := "m1", name := "Alex", color := "#fff",
    sections := [{ id := "s1", name := "Habits",
                   tasks := [{ id := "t1", name := "Walk", type := TaskType.checkbox,
                               unit := none, schedule := none }] }] }

/-- 20 entries with the task logged `true`, on the first 20 days of June
2025 (day indices 20240..20259). -/
def c8Entries : List DailyEntry :=
  (List.range 20).map (fun i =>
    { date := 20240 + (i : Int), memberId := "m1",
      sectionEntries := [{ sectionId := "s1",
                           taskResponses := [{ taskId := "t1", value := Value.bool true }],
                           notes := "" }],
      lastModified := "ts" })

/-- C8: `totalPossibleCoins` is the member's current checkbox-task count
times the days in the period, and `completedCoins` is the number of `true`
checkbox responses (under today's configuration) summed over exactly the
member's entries whose date lies in the period — the sort inside the range
query cannot change the count.  In particular, the example member with one
checkbox task, a 30-day month and 20 days logged `true` earns 20 of 30
possible coins. -/
theorem c8_month_rewards :
    (∀ (allEntries : List DailyEntry) (member : FamilyMember) (daysInMonth : Nat)
      (startDate endDate : Int),
      (calculateMemberMonthRewards allEntries member daysInMonth startDate endDate).totalPossibleCoins
          = (member.sections.map (fun s => (s.tasks.filter (fun t => t.type == TaskType.checkbox)).length)).sum
              * daysInMonth ∧
      (calculateMemberMonthRewards allEntries member daysInMonth startDate endDate).completedCoins
          = ((allEntries.filter (fun e =>
                e.memberId == member.id && decide (startDate ≤ e.date) && decide (e.date ≤ endDate))).map
              (fun e => entryCompletedCount member e)).sum) ∧
    (calculateMemberMonthRewards c8Entries c8Member 30 20240 20269).completedCoins = 20 ∧
    (calculateMemberMonthRewards c8Entries c8Member 30 20240 20269).totalPossibleCoins = 30 := by
  have hmain : ∀ (allEntries : List DailyEntry) (member : FamilyMember) (daysInMonth : Nat)
      (startDate endDate : Int),
      (calculateMemberMonthRewards allEntries member daysInMonth startDate endDate).totalPossibleCoins
          = (member.sections.map (fun s => (s.tasks.filter (fun t => t.type == TaskType.checkbox)).length)).sum
              * daysInMonth ∧
      (calculateMemberMonthRewards allEntries member daysInMonth startDate endDate).completedCoins
          = ((allEntries.filter (fun e =>
                e.memberId == member.id && decide (startDate ≤ e.date) && decide (e.date ≤ endDate))).map
              (fun e => entryCompletedCount member e)).sum := by
    intro allEntries member daysInMonth startDate endDate
    constructor
    · rfl
    · show ((getEntriesForRange allEntries member.id startDate endDate).map
          (fun e => entryCompletedCount member e)).sum = _
      have hperm :
          (getEntriesForRange allEntries member.id startDate endDate).Perm
            (allEntries.filter (fun e =>
              e.memberId == member.id && decide (startDate ≤ e.date) && decide (e.date ≤ endDate))) :=
        List.mergeSort_perm _ _
      exact List.Perm.sum_eq (hperm.map (fun e => entryCompletedCount member e))
  refine ⟨hmain, ?_, by decide⟩
  rw [(hmain c8Entries c8Member 30 20240 20269).2]
  decide

/-! ## Entries store (src/src/stores/entriesStore.ts)

The zustand store's `entries: Map<string, DailyEntry>` keyed by
`` `${memberId}_${date}` `` is modelled as an association list keyed by the
pair `(memberId, date)`; `Map.get` takes the first binding, `Map.set`
replaces the first matching binding in place or appends a new one. -/

abbrev EntryKey := String × Int

abbrev EntriesMap := List (EntryKey × DailyEntry)

/-- `entries.get(key)`. -/
def mapGet (m : EntriesMap) (k : EntryKey) : Option DailyEntry :=
  (m.find? (fun p => p.1 == k)).map (fun p => p.2)

/-- `entries.set(key, v)` on a copy of the map. -/
def mapSet : EntriesMap → EntryKey → DailyEntry → EntriesMap
  | [], k, v => [(k, v)]
  | p :: rest, k, v => if p.1 == k then (k, v) :: rest else p :: mapSet rest k v

/-- entriesStore.ts `getEntryKey(entry.memberId, entry.date)`. -/
def entryKeyOf (e : DailyEntry) : EntryKey :=
  (e.memberId, e.date)

/-- entriesStore.ts `setEntry`: upsert under the key derived from the
entry's own fields, stamping `lastModified = now`. -/
def setEntry (now : String) (m : EntriesMap) (entry : DailyEntry) : EntriesMap :=
  mapSet m (entryKeyOf entry) { entry with lastModified := now }

/-- The response rewrite of `updateTaskResponse` (entriesStore.ts lines
82-84): `tr.taskId === taskId ? { ...tr, value } : tr`. -/
def updResp (taskId : String) (value : Value) (tr : TaskResponse) : TaskResponse :=
  if tr.taskId == taskId then { tr with value := value } else tr

/-- The fresh section entry `{ sectionId, taskResponses: [{ taskId, value }],
notes: '' }` created by `updateTaskResponse` when no `SectionEntry` exists
for the section (entriesStore.ts lines 101-105 and 119-124). -/
def freshSectionEntry (sectionId taskId : String) (value : Value) : SectionEntry :=
  { sectionId := sectionId, taskResponses := [{ taskId := taskId, value := value }],
    notes := "" }

/-- The per-section branch of `updateTaskResponse` (entriesStore.ts lines
76-94): on the targeted section, replace the response for `taskId` if one
exists, else append one; other sections are returned as-is. -/
def updateSectionEntry (se : SectionEntry) (sectionId taskId : String) (value : Value) :
    SectionEntry :=
  if se.sectionId == sectionId then
    if se.taskResponses.any (fun tr => tr.taskId == taskId) then
      { se with taskResponses := se.taskResponses.map (updResp taskId value) }
    else
      { se with taskResponses := se.taskResponses ++ [{ taskId := taskId, value := value }] }
  else se

/-- `updateTaskResponse`'s rebuild of the section list (entriesStore.ts
lines 76-106): map the per-section update over the list, then append a
fresh section entry when no section matched. -/
def updateSectionEntries (ses : List SectionEntry) (sectionId taskId : String) (value : Value) :
    List SectionEntry :=
  let updated := ses.map (fun se => updateSectionEntry se sectionId taskId value)
  if ses.any (fun se => se.sectionId == sectionId) then updated
  else updated ++ [freshSectionEntry sectionId taskId value]

/-- entriesStore.ts `updateTaskResponse` (lines 70-130): update the
existing entry's section list, or create a fresh entry; either way the
result goes through `setEntry`, which stamps `lastModified`. -/
def updateTaskResponse (now : String) (m : EntriesMap) (memberId : String) (date : Int)
    (sectionId taskId : String) (value : Value) : EntriesMap :=
  match mapGet m (memberId, date) with
  | some existingEntry =>
      setEntry now m { existingEntry with
        sectionEntries := updateSectionEntries existingEntry.sectionEntries sectionId taskId value,
        lastModified := now }
  | none =>
      let newEntry : DailyEntry :=
        { date := date
          memberId := memberId
          sectionEntries := [freshSectionEntry sectionId taskId value]
          lastModified := now }
      setEntry now m newEntry

/-- The merge step of entriesStore.ts `loadEntriesForMonth` (lines
176-184): every entry of the stored blob is `set` into a copy of the
in-memory map, keyed by its own `(memberId, date)`. -/
def loadEntriesForMonth (m : EntriesMap) (blob : MonthlyEntries) : EntriesMap :=
  blob.entries.foldl (fun acc e => mapSet acc (entryKeyOf e) e) m

/-- Strip the `lastModified` stamp of an entry. -/
def eraseTS (e : DailyEntry) : DailyEntry :=
  { e with lastModified := "" }

/-- Strip every `lastModified` stamp in the map. -/
def eraseMapTS (m : EntriesMap) : EntriesMap :=
  m.map (fun p => (p.1, eraseTS p.2))

private lemma mapGet_mapSet_self (m : EntriesMap) (k : EntryKey) (v : DailyEntry) :
    mapGet (mapSet m k v) k = some v := by
  induction m with
  | nil => simp [mapSet, mapGet]
  | cons p rest ih =>
      by_cases h : p.1 = k
      · simp [mapSet, h, mapGet]
      · have hb : (p.1 == k) = false := by simpa using h
        simpa [mapSet, hb, mapGet] using ih

private lemma mapGet_mapSet_ne (m : EntriesMap) (k k' : EntryKey) (v : DailyEntry)
    (h : k' ≠ k) : mapGet (mapSet m k v) k' = mapGet m k' := by
  have hb : (k == k') = false := by
    simp
    exact fun he => h he.symm
  induction m with
  | nil => simp [mapSet, mapGet, hb]
  | cons p rest ih =>
      obtain ⟨pk, pv⟩ := p
      by_cases hp : pk = k
      · subst hp
        simp [mapSet, mapGet, hb]
      · have hpb : (pk == k) = false := by simpa using hp
        by_cases hp' : pk = k'
        · subst hp'
          simp [mapSet, hpb, mapGet]
        · have hpb' : (pk == k') = false := by simpa using hp'
          simpa [mapSet, hpb, mapGet, hpb'] using ih

private lemma mapSet_mapSet_same (m : EntriesMap) (k : EntryKey) (v w : DailyEntry) :
    mapSet (mapSet m k v) k w = mapSet m k w := by
  induction m with
  | nil => simp [mapSet]
  | cons p rest ih =>
      by_cases h : p.1 = k
      · simp [mapSet, h]
      · have hb : (p.1 == k) = false := by simpa using h
        simp [mapSet, hb, ih]

private lemma eraseMapTS_mapSet (m : EntriesMap) (k : EntryKey) (v : DailyEntry) :
    eraseMapTS (mapSet m k v) = mapSet (eraseMapTS m) k (eraseTS v) := by
  induction m with
  | nil => simp [mapSet, eraseMapTS]
  | cons p rest ih =>
      by_cases h : p.1 = k
      · simp [mapSet, h, eraseMapTS]
      · have hb : (p.1 == k) = false := by simpa using h
        simp [mapSet, hb, eraseMapTS] at ih ⊢
        exact ih

private lemma updResp_taskId (tid : String) (v : Value) (tr : TaskResponse) :
    (updResp tid v tr).taskId = tr.taskId := by
  unfold updResp
  by_cases h : (tr.taskId == tid) = true
  · rw [if_pos h]
  · rw [if_neg h]

private lemma updResp_idem (tid : String) (v : Value) (tr : TaskResponse) :
    updResp tid v (updResp tid v tr) = updResp tid v tr := by
  unfold updResp
  by_cases h : (tr.taskId == tid) = true
  · rw [if_pos h]
    have h2 : (({ tr with value := v } : TaskResponse).taskId == tid) = true := h
    rw [if_pos h2]
  · rw [if_neg h, if_neg h]

private lemma updResp_eq_self (tid : String) (v : Value) (tr : TaskResponse)
    (h : (tr.taskId == tid) = false) : updResp tid v tr = tr := by
  unfold updResp
  rw [if_neg]
  simp [h]

private lemma any_map_updResp (trs : List TaskResponse) (tid : String) (v : Value)
    (p : TaskResponse → Bool) (hp : ∀ tr, p (updResp tid v tr) = p tr) :
    (trs.map (updResp tid v)).any p = trs.any p := by
  induction trs with
  | nil => rfl
  | cons a l ih => rw [List.map_cons, List.any_cons, List.any_cons, hp a, ih]

private lemma map_updResp_idem (trs : List TaskResponse) (tid : String) (v : Value) :
    (trs.map (updResp tid v)).map (updResp tid v) = trs.map (updResp tid v) := by
  induction trs with
  | nil => rfl
  | cons a l ih => rw [List.map_cons, List.map_cons, updResp_idem, ih]

private lemma map_updResp_of_not_mem (trs : List TaskResponse) (tid : String) (v : Value)
    (h : (trs.any fun tr => tr.taskId == tid) = false) :
    trs.map (updResp tid v) = trs := by
  induction trs with
  | nil => rfl
  | cons a l ih =>
      rw [List.any_cons] at h
      have h1 : (a.taskId == tid) = false := by
        cases hx : (a.taskId == tid)
        · rfl
        · rw [hx] at h; simp at h
      have h2 : (l.any fun tr => tr.taskId == tid) = false := by
        cases hx : (l.any fun tr => tr.taskId == tid)
        · rfl
        · rw [hx] at h; simp at h
      rw [List.map_cons, updResp_eq_self tid v a h1, ih h2]

private lemma updResp_fresh (tid : String) (v : Value) :
    updResp tid v { taskId := tid, value := v } = { taskId := tid, value := v } := by
  unfold updResp
  rw [if_pos]
  exact beq_self_eq_true tid

private lemma updateSectionEntry_sectionId (se : SectionEntry) (sid tid : String) (v : Value) :
    (updateSectionEntry se sid tid v).sectionId = se.sectionId := by
  unfold updateSectionEntry
  by_cases h : (se.sectionId == sid) = true
  · rw [if_pos h]
    by_cases h2 : (se.taskResponses.any fun tr => tr.taskId == tid) = true
    · rw [if_pos h2]
    · rw [if_neg h2]
  · rw [if_neg h]

private lemma updateSectionEntry_eq_self (se : SectionEntry) (sid tid : String) (v : Value)
    (h : (se.sectionId == sid) = false) : updateSectionEntry se sid tid v = se := by
  unfold updateSectionEntry
  rw [if_neg]
  simp [h]

private lemma updateSectionEntry_idem (se : SectionEntry) (sid tid : String) (v : Value) :
    updateSectionEntry (updateSectionEntry se sid tid v) sid tid v
      = updateSectionEntry se sid tid v := by
  by_cases h : (se.sectionId == sid) = true
  · by_cases h2 : (se.taskResponses.any fun tr => tr.taskId == tid) = true
    · have hstep : updateSectionEntry se sid tid v
          = { se with taskResponses := se.taskResponses.map (updResp tid v) } := by
        unfold updateSectionEntry
        rw [if_pos h, if_pos h2]
      rw [hstep]
      unfold updateSectionEntry
      dsimp only
      rw [if_pos h]
      rw [any_map_updResp se.taskResponses tid v (fun tr => tr.taskId == tid)
        (fun tr => by simp only [updResp_taskId])]
      rw [if_pos h2, map_updResp_idem]
    · have h2f : (se.taskResponses.any fun tr => tr.taskId == tid) = false := by
        cases hx : (se.taskResponses.any fun tr => tr.taskId == tid)
        · rfl
        · exact absurd hx h2
      have hstep : updateSectionEntry se sid tid v
          = { se with taskResponses :=
                se.taskResponses ++ [{ taskId := tid, value := v }] } := by
        unfold updateSectionEntry
        rw [if_pos h, if_neg h2]
      rw [hstep]
      unfold updateSectionEntry
      dsimp only
      rw [if_pos h]
      have hany : ((se.taskResponses ++ ([{ taskId := tid, value := v }] : List TaskResponse)).any
          (fun tr => tr.taskId == tid)) = true := by
        rw [List.any_append]
        simp
      rw [if_pos hany, List.map_append,
        map_updResp_of_not_mem se.taskResponses tid v h2f,
        List.map_cons, List.map_nil, updResp_fresh]
  · have hf : (se.sectionId == sid) = false := by
      cases hx : (se.sectionId == sid)
      · rfl
      · exact absurd hx h
    rw [updateSectionEntry_eq_self se sid tid v hf, updateSectionEntry_eq_self se sid tid v hf]

private lemma any_map_updateSectionEntry (ses : List SectionEntry) (sid tid : String)
    (v : Value) (p : SectionEntry → Bool)
    (hp : ∀ se, p (updateSectionEntry se sid tid v) = p se) :
    (ses.map (fun se => updateSectionEntry se sid tid v)).any p = ses.any p := by
  induction ses with
  | nil => rfl
  | cons a l ih => rw [List.map_cons, List.any_cons, List.any_cons, hp a, ih]

private lemma map_updateSectionEntry_of_not_mem (ses : List SectionEntry)
    (sid tid : String) (v : Value)
    (h : (ses.any fun se => se.sectionId == sid) = false) :
    ses.map (fun se => updateSectionEntry se sid tid v) = ses := by
  induction ses with
  | nil => rfl
  | cons a l ih =>
      rw [List.any_cons] at h
      have h1 : (a.sectionId == sid) = false := by
        cases hx : (a.sectionId == sid)
        · rfl
        · rw [hx] at h; simp at h
      have h2 : (l.any fun se => se.sectionId == sid) = false := by
        cases hx : (l.any fun se => se.sectionId == sid)
        · rfl
        · rw [hx] at h; simp at h
      rw [List.map_cons, updateSectionEntry_eq_self a sid tid v h1, ih h2]

private lemma updateSectionEntry_fresh (sid tid : String) (v : Value) :
    updateSectionEntry (freshSectionEntry sid tid v) sid tid v
      = freshSectionEntry sid tid v := by
  unfold updateSectionEntry freshSectionEntry
  dsimp only
  rw [if_pos (beq_self_eq_true sid)]
  have hany : (([{ taskId := tid, value := v }] : List TaskResponse).any
      (fun tr => tr.taskId == tid)) = true := by
    simp
  rw [if_pos hany, List.map_cons, List.map_nil, updResp_fresh]

private lemma updateSectionEntries_fresh (sid tid : String) (v : Value) :
    updateSectionEntries [freshSectionEntry sid tid v] sid tid v
      = [freshSectionEntry sid tid v] := by
  unfold updateSectionEntries
  dsimp only
  have hany : (([freshSectionEntry sid tid v]).any
      (fun se => se.sectionId == sid)) = true := by
    simp [freshSectionEntry]
  rw [if_pos hany, List.map_cons, List.map_nil, updateSectionEntry_fresh]

private lemma updateSectionEntries_idem (ses : List SectionEntry) (sid tid : String)
    (v : Value) :
    updateSectionEntries (updateSectionEntries ses sid tid v) sid tid v
      = updateSectionEntries ses sid tid v := by
  by_cases h : (ses.any fun se => se.sectionId == sid) = true
  · have hstep : updateSectionEntries ses sid tid v
        = ses.map (fun se => updateSectionEntry se sid tid v) := by
      unfold updateSectionEntries
      dsimp only
      rw [if_pos h]
    rw [hstep]
    unfold updateSectionEntries
    dsimp only
    rw [any_map_updateSectionEntry ses sid tid v (fun se => se.sectionId == sid)
      (fun se => by simp only [updateSectionEntry_sectionId])]
    rw [if_pos h, List.map_map]
    apply List.map_congr_left
    intro a _
    simp only [Function.comp_apply]
    exact updateSectionEntry_idem a sid tid v
  · have hf : (ses.any fun se => se.sectionId == sid) = false := by
      cases hx : (ses.any fun se => se.sectionId == sid)
      · rfl
      · exact absurd hx h
    have hstep : updateSectionEntries ses sid tid v
        = ses ++ [freshSectionEntry sid tid v] := by
      unfold updateSectionEntries
      dsimp only
      rw [if_neg h, map_updateSectionEntry_of_not_mem ses sid tid v hf]
    rw [hstep]
    unfold updateSectionEntries
    dsimp only
    have hany : ((ses ++ [freshSectionEntry sid tid v]).any
        (fun se => se.sectionId == sid)) = true := by
      rw [List.any_append]
      simp [freshSectionEntry]
    rw [if_pos hany, List.map_append, map_updateSectionEntry_of_not_mem ses sid tid v hf,
      List.map_cons, List.map_nil, updateSectionEntry_fresh]

private lemma updateTaskResponse_none (now : String) (m : EntriesMap) (memberId : String)
    (date : Int) (sid tid : String) (v : Value)
    (hm : mapGet m (memberId, date) = none) :
    updateTaskResponse now m memberId date sid tid v
      = mapSet m (memberId, date)
          { date := date, memberId := memberId,
            sectionEntries := [freshSectionEntry sid tid v],
            lastModified := now } := by
  unfold updateTaskResponse
  rw [hm]
  rfl

private lemma updateTaskResponse_some (now : String) (m : EntriesMap) (memberId : String)
    (date : Int) (sid tid : String) (v : Value) (e : DailyEntry)
    (hm : mapGet m (memberId, date) = some e) :
    updateTaskResponse now m memberId date sid tid v
      = mapSet m (e.memberId, e.date)
          { date := e.date, memberId := e.memberId,
            sectionEntries := updateSectionEntries e.sectionEntries sid tid v,
            lastModified := now } := by
  unfold updateTaskResponse
  rw [hm]
  rfl

/-- C5: `updateTaskResponse` is idempotent — for every store state and
argument tuple, two identical calls (at timestamps `t1`, `t2`) leave the
map equal, up to the `lastModified` stamps, to the map after one call: the
second call overwrites the existing `TaskResponse` and duplicates
nothing. -/
theorem c5_updateTaskResponse_idempotent (t1 t2 : String) (m : EntriesMap)
    (memberId : String) (date : Int) (sectionId taskId : String) (value : Value) :
    eraseMapTS (updateTaskResponse t2
        (updateTaskResponse t1 m memberId date sectionId taskId value)
        memberId date sectionId taskId value)
      = eraseMapTS (updateTaskResponse t1 m memberId date sectionId taskId value) := by
  cases hm : mapGet m (memberId, date) with
  | none =>
      have key1 := updateTaskResponse_none t1 m memberId date sectionId taskId value hm
      have hget : mapGet (updateTaskResponse t1 m memberId date sectionId taskId value)
          (memberId, date)
          = some { date := date, memberId := memberId,
                   sectionEntries := [freshSectionEntry sectionId taskId value],
                   lastModified := t1 } := by
        rw [key1]
        exact mapGet_mapSet_self m (memberId, date) _
      have key2 := updateTaskResponse_some t2
        (updateTaskResponse t1 m memberId date sectionId taskId value)
        memberId date sectionId taskId value _ hget
      dsimp only at key2
      rw [updateSectionEntries_fresh] at key2
      rw [key2, key1, mapSet_mapSet_same, eraseMapTS_mapSet, eraseMapTS_mapSet]
      rfl
  | some e =>
      have key1 := updateTaskResponse_some t1 m memberId date sectionId taskId value e hm
      by_cases hk : ((e.memberId, e.date) : EntryKey) = (memberId, date)
      · rw [hk] at key1
        have hget : mapGet (updateTaskResponse t1 m memberId date sectionId taskId value)
            (memberId, date)
            = some { date := e.date, memberId := e.memberId,
                     sectionEntries := updateSectionEntries e.sectionEntries
                       sectionId taskId value,
                     lastModified := t1 } := by
          rw [key1]
          exact mapGet_mapSet_self m (memberId, date) _
        have key2 := updateTaskResponse_some t2
          (updateTaskResponse t1 m memberId date sectionId taskId value)
          memberId date sectionId taskId value _ hget
        dsimp only at key2
        rw [hk, updateSectionEntries_idem] at key2
        rw [key2, key1, mapSet_mapSet_same, eraseMapTS_mapSet, eraseMapTS_mapSet]
        rfl
      · have hget : mapGet (updateTaskResponse t1 m memberId date sectionId taskId value)
            (memberId, date) = some e := by
          rw [key1, mapGet_mapSet_ne m (e.memberId, e.date) (memberId, date) _
            (fun hx => hk hx.symm)]
          exact hm
        have key2 := updateTaskResponse_some t2
          (updateTaskResponse t1 m memberId date sectionId taskId value)
          memberId date sectionId taskId value e hget
        rw [key2, key1, mapSet_mapSet_same, eraseMapTS_mapSet, eraseMapTS_mapSet]
        rfl

private lemma updateSectionEntry_notes (se : SectionEntry) (sid tid : String) (v : Value) :
    (updateSectionEntry se sid tid v).notes = se.notes := by
  unfold updateSectionEntry
  by_cases h : (se.sectionId == sid) = true
  · rw [if_pos h]
    by_cases h2 : (se.taskResponses.any fun tr => tr.taskId == tid) = true
    · rw [if_pos h2]
    · rw [if_neg h2]
  · rw [if_neg h]

private lemma filter_ne_map_updResp (trs : List TaskResponse) (tid : String) (v : Value) :
    (trs.map (updResp tid v)).filter (fun tr => !(tr.taskId == tid))
      = trs.filter (fun tr => !(tr.taskId == tid)) := by
  induction trs with
  | nil => rfl
  | cons a l ih =>
      rw [List.map_cons, List.filter_cons, List.filter_cons]
      by_cases hx : (a.taskId == tid) = true
      · rw [updResp_taskId, hx]
        simpa using ih
      · have hxf : (a.taskId == tid) = false := by
          cases hy : (a.taskId == tid)
          · rfl
          · exact absurd hy hx
        rw [updResp_taskId, hxf, updResp_eq_self tid v a hxf]
        simpa using ih

private lemma updateSectionEntry_filter_ne (se : SectionEntry) (sid tid : String) (v : Value) :
    (updateSectionEntry se sid tid v).taskResponses.filter (fun tr => !(tr.taskId == tid))
      = se.taskResponses.filter (fun tr => !(tr.taskId == tid)) := by
  unfold updateSectionEntry
  by_cases h : (se.sectionId == sid) = true
  · rw [if_pos h]
    by_cases h2 : (se.taskResponses.any fun tr => tr.taskId == tid) = true
    · rw [if_pos h2]
      exact filter_ne_map_updResp se.taskResponses tid v
    · rw [if_neg h2]
      dsimp only
      rw [List.filter_append]
      have hsingle : (([{ taskId := tid, value := v }] : List TaskResponse)).filter
          (fun tr => !(tr.taskId == tid)) = [] := by
        simp
      rw [hsingle, List.append_nil]
  · rw [if_neg h]

private lemma updateSectionEntries_length_le (ses : List SectionEntry) (sid tid : String)
    (v : Value) :
    ses.length ≤ (updateSectionEntries ses sid tid v).length := by
  unfold updateSectionEntries
  dsimp only
  by_cases hc : (ses.any fun se => se.sectionId == sid) = true
  · rw [if_pos hc, List.length_map]
  · rw [if_neg hc, List.length_append, List.length_map]
    omega

private lemma updateSectionEntries_getElem (ses : List SectionEntry) (sid tid : String)
    (v : Value) (i : Nat) (h : i < ses.length) :
    (updateSectionEntries ses sid tid v)[i]?
      = some (updateSectionEntry ses[i] sid tid v) := by
  unfold updateSectionEntries
  dsimp only
  by_cases hc : (ses.any fun se => se.sectionId == sid) = true
  · rw [if_pos hc, List.getElem?_map, List.getElem?_eq_getElem h]
    rfl
  · have hlen : i < (ses.map (fun se => updateSectionEntry se sid tid v)).length := by
      rw [List.length_map]
      exact h
    rw [if_neg hc, List.getElem?_append, List.getElem?_map, List.getElem?_eq_getElem h,
      if_pos hlen]
    rfl

/-- C9: on an existing `DailyEntry`, `updateTaskResponse` leaves every
`SectionEntry` with a different `sectionId` unchanged (same position), and
within the targeted section leaves the notes and every `TaskResponse` with
a different `taskId` unchanged; no section entry is dropped. -/
theorem c9_update_frame (now : String) (m : EntriesMap) (memberId : String) (date : Int)
    (sectionId taskId : String) (value : Value) (e : DailyEntry)
    (he : mapGet m (memberId, date) = some e) :
    ∃ e', mapGet (updateTaskResponse now m memberId date sectionId taskId value)
        (e.memberId, e.date) = some e' ∧
      e'.memberId = e.memberId ∧
      e'.date = e.date ∧
      e.sectionEntries.length ≤ e'.sectionEntries.length ∧
      (∀ i, (h : i < e.sectionEntries.length) →
        (e.sectionEntries[i].sectionId ≠ sectionId →
            e'.sectionEntries[i]? = some e.sectionEntries[i]) ∧
        (e.sectionEntries[i].sectionId = sectionId →
            ∃ se', e'.sectionEntries[i]? = some se' ∧
              se'.sectionId = sectionId ∧
              se'.notes = e.sectionEntries[i].notes ∧
              se'.taskResponses.filter (fun tr => !(tr.taskId == taskId))
                = e.sectionEntries[i].taskResponses.filter
                    (fun tr => !(tr.taskId == taskId)))) := by
  refine ⟨{ date := e.date, memberId := e.memberId,
            sectionEntries := updateSectionEntries e.sectionEntries sectionId taskId value,
            lastModified := now }, ?_, rfl, rfl, ?_, ?_⟩
  · rw [updateTaskResponse_some now m memberId date sectionId taskId value e he]
    exact mapGet_mapSet_self m (e.memberId, e.date) _
  · exact updateSectionEntries_length_le e.sectionEntries sectionId taskId value
  · intro i h
    constructor
    · intro hne
      have hb : (e.sectionEntries[i].sectionId == sectionId) = false := by
        simp [hne]
      dsimp only
      rw [updateSectionEntries_getElem e.sectionEntries sectionId taskId value i h,
        updateSectionEntry_eq_self _ _ _ _ hb]
    · intro heq
      refine ⟨updateSectionEntry e.sectionEntries[i] sectionId taskId value, ?_, ?_, ?_, ?_⟩
      · exact updateSectionEntries_getElem e.sectionEntries sectionId taskId value i h
      · rw [updateSectionEntry_sectionId]
        exact heq
      · exact updateSectionEntry_notes e.sectionEntries[i] sectionId taskId value
      · exact updateSectionEntry_filter_ne e.sectionEntries[i] sectionId taskId value

/-- The C9 witness entry: two sections, the first holding one response. -/
def c9Entry : DailyEntry :=
  { date := 20240, memberId := "m1",
    sectionEntries :=
      [{ sectionId := "s1",
         taskResponses := [{ taskId := "t1", value := Value.bool false },
                           { taskId := "t9", value := Value.str "keep" }],
         notes := "note" },
       { sectionId := "s2", taskResponses := [], notes := "other" }],
    lastModified := "ts" }

/-- The C9 witness map holding `c9Entry`. -/
def c9Map : EntriesMap :=
  [(("m1", 20240), c9Entry)]

/-- Witness for C9: the frame theorem applied to the concrete map. -/
theorem c9_update_frame_witness :
    ∃ e', mapGet (updateTaskResponse "t2" c9Map "m1" 20240 "s1" "t1" (Value.bool true))
        (c9Entry.memberId, c9Entry.date) = some e' ∧
      e'.memberId = c9Entry.memberId ∧
      e'.date = c9Entry.date ∧
      c9Entry.sectionEntries.length ≤ e'.sectionEntries.length ∧
      (∀ i, (h : i < c9Entry.sectionEntries.length) →
        (c9Entry.sectionEntries[i].sectionId ≠ "s1" →
            e'.sectionEntries[i]? = some c9Entry.sectionEntries[i]) ∧
        (c9Entry.sectionEntries[i].sectionId = "s1" →
            ∃ se', e'.sectionEntries[i]? = some se' ∧
              se'.sectionId = "s1" ∧
              se'.notes = c9Entry.sectionEntries[i].notes ∧
              se'.taskResponses.filter (fun tr => !(tr.taskId == "t1"))
                = c9Entry.sectionEntries[i].taskResponses.filter
                    (fun tr => !(tr.taskId == "t1")))) :=
  c9_update_frame "t2" c9Map "m1" 20240 "s1" "t1" (Value.bool true) c9Entry (by decide)

private lemma load_foldl_preserve (l : List DailyEntry) (m : EntriesMap) (k : EntryKey)
    (h : ∀ e, e ∈ l → entryKeyOf e ≠ k) :
    mapGet (l.foldl (fun acc e => mapSet acc (entryKeyOf e) e) m) k = mapGet m k := by
  induction l generalizing m with
  | nil => rfl
  | cons a l ih =>
      rw [List.foldl_cons]
      rw [ih (mapSet m (entryKeyOf a) a) (fun e he => h e (List.mem_cons_of_mem a he))]
      exact mapGet_mapSet_ne m (entryKeyOf a) k a (Ne.symm (h a (List.mem_cons_self a l)))

private lemma load_foldl_mem (l : List DailyEntry)
    (hnodup : (l.map entryKeyOf).Nodup) (m : EntriesMap) :
    ∀ e, e ∈ l →
      mapGet (l.foldl (fun acc e => mapSet acc (entryKeyOf e) e) m) (entryKeyOf e) = some e := by
  induction l generalizing m with
  | nil =>
      intro e he
      cases he
  | cons a l ih =>
      intro e he
      rw [List.map_cons, List.nodup_cons] at hnodup
      rw [List.foldl_cons]
      rcases List.mem_cons.mp he with rfl | hmem
      · have hrest : ∀ e2, e2 ∈ l → entryKeyOf e2 ≠ entryKeyOf e := by
          intro e2 he2 hk2
          exact hnodup.1 (hk2 ▸ List.mem_map_of_mem entryKeyOf he2)
        rw [load_foldl_preserve l (mapSet m (entryKeyOf e) e) (entryKeyOf e) hrest]
        exact mapGet_mapSet_self m (entryKeyOf e) e
      · exact ih hnodup.2 (mapSet m (entryKeyOf a) a) e hmem

private lemma load_foldl_isSome (l : List DailyEntry) (m : EntriesMap) (k : EntryKey)
    (h : (mapGet m k).isSome = true) :
    (mapGet (l.foldl (fun acc e => mapSet acc (entryKeyOf e) e) m) k).isSome = true := by
  induction l generalizing m with
  | nil => exact h
  | cons a l ih =>
      rw [List.foldl_cons]
      apply ih
      by_cases hk : k = entryKeyOf a
      · rw [hk, mapGet_mapSet_self]
        rfl
      · rw [mapGet_mapSet_ne m (entryKeyOf a) k a hk]
        exact h

/-- C10: `loadEntriesForMonth` merges, never replaces wholesale — given a
stored blob whose entries have pairwise distinct `(memberId, date)` keys,
every blob entry ends up in the map under its key (overwriting any
in-memory entry there), every key not mentioned in the blob keeps its
previous value (including entries of the same month), and no previously
present key is ever removed. -/
theorem c10_loadEntriesForMonth_merges (m : EntriesMap) (blob : MonthlyEntries)
    (hnodup : (blob.entries.map entryKeyOf).Nodup) :
    (∀ e, e ∈ blob.entries →
        mapGet (loadEntriesForMonth m blob) (entryKeyOf e) = some e) ∧
    (∀ k, (∀ e, e ∈ blob.entries → entryKeyOf e ≠ k) →
        mapGet (loadEntriesForMonth m blob) k = mapGet m k) ∧
    (∀ k v, mapGet m k = some v →
        ∃ w, mapGet (loadEntriesForMonth m blob) k = some w) := by
  refine ⟨load_foldl_mem blob.entries hnodup m, ?_, ?_⟩
  · intro k hk
    exact load_foldl_preserve blob.entries m k hk
  · intro k v hv
    have hs : (mapGet m k).isSome = true := by
      rw [hv]
      rfl
    have := load_foldl_isSome blob.entries m k hs
    exact Option.isSome_iff_exists.mp this

/-- The C10 witness: the in-memory map holds an old version of one entry
and an unrelated entry; the blob holds the new version of the first. -/
def c10Old : DailyEntry :=
  { date := 20240, memberId := "m1", sectionEntries := [], lastModified := "old" }

/-- The unrelated in-memory entry the load must not touch. -/
def c10Other : DailyEntry :=
  { date := 20300, memberId := "m2", sectionEntries := [], lastModified := "keep" }

/-- The stored entry that overwrites `c10Old`. -/
def c10New : DailyEntry :=
  { date := 20240, memberId := "m1",
    sectionEntries := [freshSectionEntry "s1" "t1" (Value.bool true)],
    lastModified := "new" }

/-- The C10 witness in-memory map. -/
def c10Map : EntriesMap :=
  [(("m1", 20240), c10Old), (("m2", 20300), c10Other)]

/-- The C10 witness stored blob. -/
def c10Blob : MonthlyEntries :=
  { month := "2025-06", entries := [c10New], lastModified := "blob" }

/-- Witness for C10: the stored version overwrites the in-memory one, and
the unrelated key keeps its value. -/
theorem c10_loadEntriesForMonth_merges_witness :
    mapGet (loadEntriesForMonth c10Map c10Blob) ("m1", 20240) = some c10New ∧
    mapGet (loadEntriesForMonth c10Map c10Blob) ("m2", 20300)
      = mapGet c10Map ("m2", 20300) := by
  have h := c10_loadEntriesForMonth_merges c10Map c10Blob (by decide)
  exact ⟨h.1 c10New (by decide), h.2.1 ("m2", 20300) (by decide)⟩

/-! ## Storage service (src/src/services/storage.ts)

`AsyncStorage` is modelled as an association list from string keys to
parsed values (JSON serialization is the identity here).  Remote (Google
Drive) calls are modelled by outcome parameters: a boolean (or an `Except`
result for reads) standing for the behaviour of the network call, since
the Drive collaborator is external (§6 of the spec). -/

/-- A parsed value held by the local key-value store. -/
inductive StoredValue where
  | settings (s : AppSettings)
  | months (m : MonthlyEntries)
deriving DecidableEq, Repr

abbrev LocalStore := List (String × StoredValue)

/-- `AsyncStorage.getItem`. -/
def getItem (st : LocalStore) (k : String) : Option StoredValue :=
  (st.find? (fun p => p.1 == k)).map (fun p => p.2)

/-- `AsyncStorage.setItem`. -/
def setItem : LocalStore → String → StoredValue → LocalStore
  | [], k, v => [(k, v)]
  | p :: rest, k, v => if p.1 == k then (k, v) :: rest else p :: setItem rest k v

/-- `AsyncStorage.getAllKeys`. -/
def getAllKeys (st : LocalStore) : List String :=
  st.map (fun p => p.1)

/-- The remote Drive folder contents as managed by googleDrive.ts:
`settings.json` plus one file per month. -/
structure DriveState where
  settingsFile : Option AppSettings
  monthFiles : List (String × MonthlyEntries)
deriving DecidableEq, Repr

/-- Combined local + remote persistent state. -/
structure SyncState where
  store : LocalStore
  drive : DriveState
deriving DecidableEq, Repr

/-- `googleDriveService.saveSettings` (upsert of `settings.json`). -/
def driveSaveSettings (d : DriveState) (s : AppSettings) : DriveState :=
  { d with settingsFile := some s }

/-- Upsert of a remote month file by month key. -/
def upsertMonthFile : List (String × MonthlyEntries) → String → MonthlyEntries →
    List (String × MonthlyEntries)
  | [], k, v => [(k, v)]
  | p :: rest, k, v => if p.1 == k then (k, v) :: rest else p :: upsertMonthFile rest k v

/-- `googleDriveService.saveMonthlyEntries`. -/
def driveSaveMonth (d : DriveState) (data : MonthlyEntries) : DriveState :=
  { d with monthFiles := upsertMonthFile d.monthFiles data.month data }

/-- storage.ts `saveSettings` (lines 16-28): always write `app_settings`
locally; if online, attempt the Drive write, catching and swallowing a
failure (`remoteOk = false`); the `Except` is what the caller observes. -/
def saveSettings (isOnline : Bool) (remoteOk : Bool) (st : SyncState) (s : AppSettings) :
    SyncState × Except Unit Unit :=
  let st1 := { st with store := setItem st.store "app_settings" (StoredValue.settings s) }
  if isOnline then
    if remoteOk then ({ st1 with drive := driveSaveSettings st1.drive s }, Except.ok ())
    else (st1, Except.ok ())
  else (st1, Except.ok ())

/-- storage.ts `saveMonthlyEntries` (lines 51-65): same shape, under the
key `entries_<month>`. -/
def saveMonthlyEntries (isOnline : Bool) (remoteOk : Bool) (st : SyncState)
    (data : MonthlyEntries) : SyncState × Except Unit Unit :=
  let key := "entries_" ++ data.month
  let st1 := { st with store := setItem st.store key (StoredValue.months data) }
  if isOnline then
    if remoteOk then ({ st1 with drive := driveSaveMonth st1.drive data }, Except.ok ())
    else (st1, Except.ok ())
  else (st1, Except.ok ())

private lemma getItem_setItem_self (st : LocalStore) (k : String) (v : StoredValue) :
    getItem (setItem st k v) k = some v := by
  induction st with
  | nil => simp [setItem, getItem]
  | cons p rest ih =>
      by_cases h : p.1 = k
      · simp [setItem, h, getItem]
      · have hb : (p.1 == k) = false := by simpa using h
        simpa [setItem, hb, getItem] using ih

/-- C3: for each unit kind, `save` in online mode with a failing remote
write still returns success (the failure is swallowed), the unit is
persisted locally under its key (no rollback), and the remote state is
untouched. -/
theorem c3_save_swallows_remote_failure (st : SyncState) (s : AppSettings)
    (data : MonthlyEntries) :
    ((saveSettings true false st s).2 = Except.ok () ∧
     getItem (saveSettings true false st s).1.store "app_settings"
       = some (StoredValue.settings s) ∧
     (saveSettings true false st s).1.drive = st.drive) ∧
    ((saveMonthlyEntries true false st data).2 = Except.ok () ∧
     getItem (saveMonthlyEntries true false st data).1.store ("entries_" ++ data.month)
       = some (StoredValue.months data) ∧
     (saveMonthlyEntries true false st data).1.drive = st.drive) := by
  refine ⟨⟨rfl, ?_, rfl⟩, ⟨rfl, ?_, rfl⟩⟩
  · exact getItem_setItem_self st.store "app_settings" (StoredValue.settings s)
  · exact getItem_setItem_self st.store ("entries_" ++ data.month) (StoredValue.months data)

/-- The local read fallback of storage.ts `loadSettings` (lines 45-47). -/
def localSettingsOf (st : LocalStore) : Option AppSettings :=
  match getItem st "app_settings" with
  | some (StoredValue.settings s) => some s
  | _ => none

/-- The local read fallback of storage.ts `loadMonthlyEntries` (lines
84-86). -/
def localMonthOf (st : LocalStore) (month : String) : Option MonthlyEntries :=
  match getItem st ("entries_" ++ month) with
  | some (StoredValue.months data) => some data
  | _ => none

/-- storage.ts `loadSettings` (lines 30-48): online tries Drive first — a
value updates the local cache and is returned; a null or thrown Drive
result falls back to the local cache; offline goes straight to the local
cache.  `remote` is the outcome of `googleDriveService.loadSettings()`. -/
def loadSettings (isOnline : Bool) (remote : Except Unit (Option AppSettings))
    (st : LocalStore) : LocalStore × Option AppSettings :=
  if isOnline then
    match remote with
    | Except.ok (some driveSettings) =>
        (setItem st "app_settings" (StoredValue.settings driveSettings), some driveSettings)
    | Except.ok none => (st, localSettingsOf st)
    | Except.error _ => (st, localSettingsOf st)
  else (st, localSettingsOf st)

/-- storage.ts `loadMonthlyEntries` (lines 67-87): same shape per month. -/
def loadMonthlyEntries (isOnline : Bool) (month : String)
    (remote : Except Unit (Option MonthlyEntries)) (st : LocalStore) :
    LocalStore × Option MonthlyEntries :=
  if isOnline then
    match remote with
    | Except.ok (some driveData) =>
        (setItem st ("entries_" ++ month) (StoredValue.months driveData), some driveData)
    | Except.ok none => (st, localMonthOf st month)
    | Except.error _ => (st, localMonthOf st month)
  else (st, localMonthOf st month)

/-- C4: in online mode a successful remote read with a value is returned
and overwrites the local cache; a remote failure (or offline mode) returns
the local cache value and leaves the store unchanged; when neither remote
nor local has a value the result is `none`. -/
theorem c4_load_remote_first (st : LocalStore) (v : AppSettings) (month : String)
    (data : MonthlyEntries) :
    ((loadSettings true (Except.ok (some v)) st).2 = some v ∧
     getItem (loadSettings true (Except.ok (some v)) st).1 "app_settings"
       = some (StoredValue.settings v) ∧
     loadSettings true (Except.error ()) st = (st, localSettingsOf st) ∧
     loadSettings true (Except.ok none) st = (st, localSettingsOf st) ∧
     (∀ r, loadSettings false r st = (st, localSettingsOf st)) ∧
     (getItem st "app_settings" = none →
       (loadSettings true (Except.error ()) st).2 = none)) ∧
    ((loadMonthlyEntries true month (Except.ok (some data)) st).2 = some data ∧
     getItem (loadMonthlyEntries true month (Except.ok (some data)) st).1
         ("entries_" ++ month) = some (StoredValue.months data) ∧
     loadMonthlyEntries true month (Except.error ()) st = (st, localMonthOf st month) ∧
     loadMonthlyEntries true month (Except.ok none) st = (st, localMonthOf st month) ∧
     (∀ r, loadMonthlyEntries false month r st = (st, localMonthOf st month)) ∧
     (getItem st ("entries_" ++ month) = none →
       (loadMonthlyEntries true month (Except.error ()) st).2 = none)) := by
  refine ⟨⟨rfl, ?_, rfl, rfl, fun r => rfl, ?_⟩, ⟨rfl, ?_, rfl, rfl, fun r => rfl, ?_⟩⟩
  · exact getItem_setItem_self st "app_settings" (StoredValue.settings v)
  · intro h
    show localSettingsOf st = none
    unfold localSettingsOf
    rw [h]
  · exact getItem_setItem_self st ("entries_" ++ month) (StoredValue.months data)
  · intro h
    show localMonthOf st month = none
    unfold localMonthOf
    rw [h]

/-- Witness for C4: the theorem applied to an empty local store and
concrete remote values. -/
theorem c4_load_remote_first_witness :
    (loadSettings true (Except.ok (some { members := [], lastModified := "s" })) []).2
      = some { members := [], lastModified := "s" } ∧
    (loadSettings true (Except.error ()) []).2 = none ∧
    (loadMonthlyEntries true "2025-06" (Except.error ()) []).2 = none := by
  have h := c4_load_remote_first [] { members := [], lastModified := "s" } "2025-06"
    { month := "2025-06", entries := [], lastModified := "m" }
  exact ⟨h.1.1, h.1.2.2.2.2.2 rfl, h.2.2.2.2.2.2 rfl⟩

/-! ## Full push (storage.ts `syncToCloud`, lines 90-116) -/

/-- One unit pushed by `syncToCloud`. -/
inductive SyncUnit where
  | settingsUnit (s : AppSettings)
  | monthUnit (m : MonthlyEntries)
deriving DecidableEq, Repr

/-- `k.startsWith('entries_')`, computed on character lists so the kernel
can evaluate it. -/
def isEntriesKey (k : String) : Bool :=
  List.isPrefixOf ("entries_".data) k.data

/-- The units `syncToCloud` enumerates, in order: the parsed
`app_settings` value when present, then one unit per `entries_`-prefixed
key holding a value, in store order. -/
def syncUnitsOf (st : LocalStore) : List SyncUnit :=
  (match getItem st "app_settings" with
   | some (StoredValue.settings s) => [SyncUnit.settingsUnit s]
   | _ => []) ++
  ((getAllKeys st).filter (fun k => isEntriesKey k)).filterMap (fun k =>
    match getItem st k with
    | some (StoredValue.months data) => some (SyncUnit.monthUnit data)
    | _ => none)

/-- The body of `syncToCloud`'s single try/catch: attempt each unit in
order, `oracle i` being the outcome of the i-th remote write; the catch
rethrows the first failure, abandoning the remaining units.  Returns the
list of attempted units and the overall outcome. -/
def attemptAll (oracle : Nat → Bool) : Nat → List SyncUnit → List SyncUnit × Except Unit Unit
  | _, [] => ([], Except.ok ())
  | i, u :: rest =>
      if oracle i then
        let r := attemptAll oracle (i + 1) rest
        (u :: r.1, r.2)
      else ([u], Except.error ())

/-- storage.ts `syncToCloud`: immediate return when offline; otherwise
push settings and every locally held month sequentially inside one
try/catch that rethrows. -/
def syncToCloud (isOnline : Bool) (st : LocalStore) (oracle : Nat → Bool) :
    List SyncUnit × Except Unit Unit :=
  if isOnline then attemptAll oracle 0 (syncUnitsOf st) else ([], Except.ok ())

/-- The C2 counterexample store: settings plus one month held locally. -/
def c2Settings : AppSettings :=
  { members := [], lastModified := "s" }

/-- The locally held month of the C2 counterexample. -/
def c2Month : MonthlyEntries :=
  { month := "2025-06", entries := [], lastModified := "m" }

/-- The C2 counterexample local store. -/
def c2Store : LocalStore :=
  [("app_settings", StoredValue.settings c2Settings),
   ("entries_2025-06", StoredValue.months c2Month)]

/-- Counterexample to C2: with two locally held units and the first remote
write failing, `syncToCloud` attempts only the first unit — the month unit
is never attempted, contradicting "a failure on one unit does not prevent
the remaining units from being attempted". -/
theorem c2_counterexample :
    syncUnitsOf c2Store = [SyncUnit.settingsUnit c2Settings, SyncUnit.monthUnit c2Month] ∧
    (syncToCloud true c2Store (fun _ => false)).1 = [SyncUnit.settingsUnit c2Settings] ∧
    SyncUnit.monthUnit c2Month ∉ (syncToCloud true c2Store (fun _ => false)).1 := by
  refine ⟨by decide, by decide, by decide⟩

private lemma attemptAll_all_ok (oracle : Nat → Bool) (hall : ∀ i, oracle i = true) :
    ∀ (l : List SyncUnit) (i : Nat), attemptAll oracle i l = (l, Except.ok ()) := by
  intro l
  induction l with
  | nil => intro i; rfl
  | cons u rest ih =>
      intro i
      unfold attemptAll
      rw [hall i, if_pos rfl, ih (i + 1)]

/-- C2 amended: `syncToCloud` enumerates the settings unit and every
locally held month unit and writes them sequentially, but aborts at the
first failing unit, rethrowing its error — units after the failure are not
attempted; only when every remote write succeeds are all units written
(and the call reports success); offline it does nothing. -/
theorem c2_pushAll_aborts_on_failure (st : LocalStore) (oracle : Nat → Bool) :
    (syncToCloud false st oracle = ([], Except.ok ())) ∧
    ((∀ i, oracle i = true) →
      syncToCloud true st oracle = (syncUnitsOf st, Except.ok ())) ∧
    (oracle 0 = false → syncUnitsOf st ≠ [] →
      syncToCloud true st oracle = ((syncUnitsOf st).take 1, Except.error ())) := by
  refine ⟨rfl, ?_, ?_⟩
  · intro hall
    show attemptAll oracle 0 (syncUnitsOf st) = (syncUnitsOf st, Except.ok ())
    exact attemptAll_all_ok oracle hall (syncUnitsOf st) 0
  · intro h0 hne
    show attemptAll oracle 0 (syncUnitsOf st) = ((syncUnitsOf st).take 1, Except.error ())
    cases hu : syncUnitsOf st with
    | nil => exact absurd hu hne
    | cons u rest =>
        unfold attemptAll
        rw [h0]
        rfl

/-- Witness for C2 amended: with all remote writes succeeding both units
are attempted; with the first failing only the first is. -/
theorem c2_pushAll_aborts_on_failure_witness :
    syncToCloud true c2Store (fun _ => true) = (syncUnitsOf c2Store, Except.ok ()) ∧
    syncToCloud true c2Store (fun _ => false)
      = ((syncUnitsOf c2Store).take 1, Except.error ()) := by
  constructor
  · exact (c2_pushAll_aborts_on_failure c2Store (fun _ => true)).2.1 (fun i => rfl)
  · exact (c2_pushAll_aborts_on_failure c2Store (fun _ => false)).2.2 rfl (by decide)

end OurJournal
